import Mathlib

/-
Verification of the data-aggregation core of the IDeA-FBSC recruiting
dashboard.  The definitions below are a shallow embedding of the
JavaScript module src/frontend/src/utils/dataLoader.js and of the second,
near-identical copy of that module found in src/unnamed/part_000.

Modelling conventions:
  - JavaScript numbers are modelled exactly: integer-valued fields as Int,
    floating-point fields as Rat.  Infinite values (parseFloat of an
    Infinity literal) are not representable in Rat and are modelled as a
    parse failure; no claim depends on them.
  - null / undefined results of numeric coercion are modelled with Option.
  - JS truthiness: a string is truthy iff non-empty; a number is truthy
    iff non-zero; null and undefined are falsy.
  - A JS Map is modelled as an association list in insertion order: an
    update touches the existing entry in place, a fresh key is appended.
  - JS object property access on processed records is modelled by jsGetStr
    for string-valued properties: the canonical camelCase column names are
    the only own properties, any other name reads as undefined (none).
-/

namespace FBSC

/-- White-space test used by the model for leading-space skipping in the
numeric parsers and for the whitespace regex in header cleaning.  It covers
the ASCII white-space characters plus no-break space and the BOM; the more
exotic Unicode space code points accepted by JS are outside the model and
unused by every claim. -/
def jsWhite (c : Char) : Bool :=
  c == ' ' || c == '\t' || c == '\n' || c == '\r' ||
  c == '\x0b' || c == '\x0c' || c == '\u00a0' || c == '\ufeff'

/-- Decimal digit test. -/
def isDigit10 (c : Char) : Bool := '0' ≤ c && c ≤ '9'

/-- Hexadecimal digit test. -/
def isDigit16 (c : Char) : Bool :=
  isDigit10 c || ('a' ≤ c && c ≤ 'f') || ('A' ≤ c && c ≤ 'F')

/-- Numeric value of one digit character. -/
def digitVal (c : Char) : Nat :=
  if isDigit10 c then c.toNat - '0'.toNat
  else if 'a' ≤ c && c ≤ 'f' then c.toNat - 'a'.toNat + 10
  else if 'A' ≤ c && c ≤ 'F' then c.toNat - 'A'.toNat + 10
  else 0

/-- Value of a digit string in the given base, most significant first. -/
def natOfDigits (base : Nat) (ds : List Char) : Nat :=
  ds.foldl (fun n c => n * base + digitVal c) 0

/-- Model of the JS global parseInt applied with no radix argument:
skip leading white space, read an optional sign, detect a 0x prefix
(hexadecimal) and otherwise use base 10, then take the longest run of
digits of the base.  No digit at all gives NaN, modelled as none. -/
def jsParseInt (s : String) : Option Int :=
  let cs := s.toList.dropWhile jsWhite
  let (sgn, cs) : Int × List Char :=
    match cs with
    | '-' :: t => (-1, t)
    | '+' :: t => (1, t)
    | t => (1, t)
  let (base, cs, dtest) : Nat × List Char × (Char → Bool) :=
    match cs with
    | '0' :: 'x' :: t => (16, t, isDigit16)
    | '0' :: 'X' :: t => (16, t, isDigit16)
    | t => (10, t, isDigit10)
  let ds := cs.takeWhile dtest
  if ds.isEmpty then none else some (sgn * (natOfDigits base ds : Int))

/-- The exact rational value sign times digits times ten to the signed
power, built with integer arithmetic and the normalising rational
constructor. -/
def scaledDecimal (sgn : Int) (digits : Nat) (pow : Int) : Rat :=
  if 0 ≤ pow then Rat.ofInt (sgn * digits * (10 : Int) ^ pow.toNat)
  else mkRat (sgn * digits) ((10 : Nat) ^ (-pow).toNat)

/-- Model of the JS global parseFloat: skip leading white space, read an
optional sign, then the longest decimal-literal prefix
digits [. digits] [exponent] or . digits [exponent], where an exponent is
e or E, an optional sign and at least one digit (a dangling e is left out
of the literal).  No literal at all gives NaN, modelled as none.  An
Infinity literal is not representable in Rat and is modelled as a parse
failure; no claim exercises it.  The value of the literal is the exact
rational sign times digits times ten to the power exponent minus
fraction length. -/
def jsParseFloat (s : String) : Option Rat :=
  let cs := s.toList.dropWhile jsWhite
  let (sgn, cs) : Int × List Char :=
    match cs with
    | '-' :: t => (-1, t)
    | '+' :: t => (1, t)
    | t => (1, t)
  let (ip, r1) := cs.span isDigit10
  let (fp, r2) : List Char × List Char :=
    match r1 with
    | '.' :: t => t.span isDigit10
    | t => ([], t)
  if ip.isEmpty && fp.isEmpty then none
  else
    let ex : Int :=
      match r2 with
      | 'e' :: t | 'E' :: t =>
        let (esgn, t2) : Int × List Char :=
          match t with
          | '+' :: u => (1, u)
          | '-' :: u => (-1, u)
          | u => (1, u)
        let eds := t2.takeWhile isDigit10
        if eds.isEmpty then 0 else esgn * (natOfDigits 10 eds : Int)
      | _ => 0
    some (scaledDecimal sgn (natOfDigits 10 (ip ++ fp)) (ex - fp.length))

/-- The JS expression p where p came from parseInt, composed with the
fallback p or 0: NaN falls back to 0, and the falsy value 0 falls back to
the same 0. -/
def orZeroI (o : Option Int) : Int :=
  match o with
  | some x => x
  | none => 0

/-- Same fallback for parseFloat results. -/
def orZeroQ (o : Option Rat) : Rat :=
  match o with
  | some x => x
  | none => 0

/-- The JS expression parseFloat(cell) or null: a NaN parse gives null,
and a parsed 0 is falsy, so it also gives null. -/
def orNullQ (o : Option Rat) : Option Rat :=
  match o with
  | some x => if x == 0 then none else some x
  | none => none

/-- Truthiness of a nullable number. -/
def optTruthy (o : Option Rat) : Bool :=
  match o with
  | some x => x != 0
  | none => false

/-- One raw CSV row after header-name canonicalisation: every recognised
column holds the raw cell text.  A missing cell reads as the empty string,
which is falsy exactly like undefined in every use the module makes of raw
cells. -/
structure RawRow where
  year : String
  ranking : String
  height : String
  weight : String
  stars : String
  rating : String
  classYear : String
  latitude : String
  longitude : String
  name : String
  school : String
  committedTo : String
  city : String
  stateProvince : String
  country : String
deriving DecidableEq

/-- One processed recruiting record, as produced by the load pipeline. -/
structure Record where
  year : Int
  ranking : Int
  height : Rat
  weight : Rat
  stars : Int
  rating : Rat
  classYear : Int
  latitude : Option Rat
  longitude : Option Rat
  name : String
  school : String
  committedTo : String
  city : String
  stateProvince : String
  country : String
deriving DecidableEq

/-- The per-row map step of loadRecruitingData: numeric coercion with
fallback 0 for counting fields and fallback null for the coordinates; the
string fields ride along through the object spread. -/
def processRow (r : RawRow) : Record where
  year := orZeroI (jsParseInt r.year)
  ranking := orZeroI (jsParseInt r.ranking)
  height := orZeroQ (jsParseFloat r.height)
  weight := orZeroQ (jsParseFloat r.weight)
  stars := orZeroI (jsParseInt r.stars)
  rating := orZeroQ (jsParseFloat r.rating)
  classYear := orZeroI (jsParseInt r.classYear)
  latitude := orNullQ (jsParseFloat r.latitude)
  longitude := orNullQ (jsParseFloat r.longitude)
  name := r.name
  school := r.school
  committedTo := r.committedTo
  city := r.city
  stateProvince := r.stateProvince
  country := r.country

/-- The pure core of loadRecruitingData (both copies are identical here):
drop rows with a falsy raw classYear, committedTo or school, coerce the
numeric cells, then drop records without truthy coordinates or a positive
class year. -/
def loadRecruitingData (rows : List RawRow) : List Record :=
  ((rows.filter fun r =>
      r.classYear != "" && r.committedTo != "" && r.school != "").map processRow).filter
    fun rec => optTruthy rec.latitude && optTruthy rec.longitude && decide (rec.classYear > 0)

/-- Lower-case a string, as the JS toLowerCase call does for the basic
Latin letters that appear in the CSV headers (the Unicode simple case
mapping beyond that is outside the model and unused by every claim). -/
def jsToLower (s : String) : String :=
  ⟨s.toList.map Char.toLower⟩

/-- The header cleaning chain of the dataLoader.js transformHeader:
toLowerCase, then a replace of the pattern lower-upper by the same two
captured characters (the identity on every string, kept here as what it
is), then removal of every white-space run. -/
def cleanHeader (h : String) : String :=
  ⟨(jsToLower h).toList.filter fun c => !jsWhite c⟩

/-- transformHeader as written in src/frontend/src/utils/dataLoader.js:
clean first, then apply the three special-case mappings to the cleaned
name. -/
def transformHeaderFe (h : String) : String :=
  let c := cleanHeader h
  if c == "class_year" then "classYear"
  else if c == "stateprovince" then "stateProvince"
  else if c == "committedto" then "committedTo"
  else c

/-- transformHeader as written in src/unnamed/part_000: the three
special-case mappings test the exact incoming name first, every other
header is cleaned. -/
def transformHeaderP0 (h : String) : String :=
  if h == "class_year" then "classYear"
  else if h == "stateProvince" then "stateProvince"
  else if h == "committedTo" then "committedTo"
  else cleanHeader h

/-- Model of JS string property access on a processed record: the
canonical camelCase column names are the only own string-valued
properties; any other property name (in particular the all-lower-case
names committedto and stateprovince used by the dataLoader.js aggregation
helpers) is absent and reads as undefined, modelled as none. -/
def jsGetStr (r : Record) (k : String) : Option String :=
  if k == "name" then some r.name
  else if k == "school" then some r.school
  else if k == "committedTo" then some r.committedTo
  else if k == "city" then some r.city
  else if k == "stateProvince" then some r.stateProvince
  else if k == "country" then some r.country
  else none

/-- Stringification performed by a JS template literal. -/
def jsValToString (o : Option String) : String :=
  match o with
  | some s => s
  | none => "undefined"

/-- Insertion-order deduplication, as performed by the JS Set
constructor: the first occurrence of each element is kept. -/
def dedupFirstAux {α : Type} [DecidableEq α] (seen : List α) : List α → List α
  | [] => []
  | a :: as => if a ∈ seen then dedupFirstAux seen as else a :: dedupFirstAux (a :: seen) as

/-- Spreading a JS Set built from a list. -/
def dedupFirst {α : Type} [DecidableEq α] (l : List α) : List α :=
  dedupFirstAux [] l

/-- The JS Array sort of a list of strings with the default comparator:
with distinct elements the result is the unique ordering by code-unit
comparison, modelled by the linear order on String. -/
def sortStrings (l : List String) : List String :=
  l.insertionSort (· ≤ ·)

/-- The JS Array sort applied to a list that may hold undefined entries:
the default sort moves undefined entries to the end and orders the rest
by string comparison. -/
def jsSortOptStr (l : List (Option String)) : List (Option String) :=
  (sortStrings (l.filterMap id)).map some ++ List.replicate (l.countP (·.isNone)) none

/-- getUniqueColleges as written in src/frontend/src/utils/dataLoader.js:
it reads the property committedto, which no processed record has. -/
def getUniqueCollegesFe (data : List Record) : List (Option String) :=
  jsSortOptStr (dedupFirst (data.map fun row => jsGetStr row "committedto"))

/-- getUniqueColleges as written in src/unnamed/part_000: it reads the
canonical property committedTo. -/
def getUniqueCollegesP0 (data : List Record) : List (Option String) :=
  jsSortOptStr (dedupFirst (data.map fun row => jsGetStr row "committedTo"))

/-- Year-bounds record returned by getYearRange. -/
structure YearRange where
  min : Int
  max : Int
deriving DecidableEq

/-- The class years getYearRange ranges over: classYear values strictly
between 0 and 2030. -/
def yearsInRange (data : List Record) : List Int :=
  (data.map Record.classYear).filter fun y => decide (y > 0) && decide (y < 2030)

/-- The JS spread call of Math.min over a list known non-empty at the
call site (the empty case, where JS would give Infinity, is unreachable
behind the isEmpty guard and modelled as none). -/
def spreadMin (l : List Int) : Option Int :=
  match l with
  | [] => none
  | x :: xs => some (xs.foldl min x)

/-- Same for Math.max. -/
def spreadMax (l : List Int) : Option Int :=
  match l with
  | [] => none
  | x :: xs => some (xs.foldl max x)

/-- getYearRange, identical in both copies of the module. -/
def getYearRange (data : List Record) : YearRange :=
  if data.isEmpty then ⟨2023, 2025⟩
  else
    let years := yearsInRange data
    if years.isEmpty then ⟨2023, 2025⟩
    else ⟨(spreadMin years).getD 2023, (spreadMax years).getD 2025⟩

/-- Substring test at the head of a character list. -/
def headChunk : List Char → List Char → Bool
  | _, [] => true
  | [], _ :: _ => false
  | a :: hay, b :: needle => a == b && headChunk hay needle

/-- Substring test anywhere in a character list. -/
def hasChunk (hay needle : List Char) : Bool :=
  match hay with
  | [] => needle.isEmpty
  | _ :: hs => headChunk hay needle || hasChunk hs needle

/-- The JS String includes method. -/
def jsIncludes (hay needle : String) : Bool :=
  hasChunk hay.toList needle.toList

/-- filterData, identical in both copies of the module: a year-range,
coordinate-truthiness and country pass, then, unless the college argument
is the sentinel all, a case-insensitive substring pass on committedTo. -/
def filterData (data : List Record) (startYear endYear : Int) (college : String) : List Record :=
  let filtered := data.filter fun row =>
    decide (row.classYear ≥ startYear) && decide (row.classYear ≤ endYear) &&
    optTruthy row.latitude && optTruthy row.longitude && row.country == "USA"
  if college != "all" then
    filtered.filter fun row => jsIncludes (jsToLower row.committedTo) (jsToLower college)
  else filtered

/-- One JS Map upsert step: bump the entry already stored under the key,
or append a fresh entry at the end (JS Map iteration is in insertion
order). -/
def jsMapUpsert {κ E : Type} [DecidableEq κ] (key : κ) (inc : E → E) (init : E) :
    List (κ × E) → List (κ × E)
  | [] => [(key, init)]
  | (k, v) :: rest =>
    if k = key then (k, inc v) :: rest else (k, v) :: jsMapUpsert key inc init rest

/-- One aggregated high-school-to-college pathway. -/
structure Pathway where
  school : String
  college : String
  city : String
  state : String
  lat : Option Rat
  lon : Option Rat
  count : Nat
deriving DecidableEq

/-- The template-literal Map key of aggregatePathways. -/
def pathwayKey (row : Record) : String :=
  row.school ++ "|" ++ row.committedTo

/-- The fresh Map entry aggregatePathways stores for a new key. -/
def pathwayInit (row : Record) : Pathway where
  school := row.school
  college := row.committedTo
  city := row.city
  state := row.stateProvince
  lat := row.latitude
  lon := row.longitude
  count := 1

/-- One forEach step of aggregatePathways. -/
def pathwayStep (m : List (String × Pathway)) (row : Record) : List (String × Pathway) :=
  jsMapUpsert (pathwayKey row) (fun e => { e with count := e.count + 1 }) (pathwayInit row) m

/-- The Map built by aggregatePathways, keys included. -/
def aggregatePathwaysKeyed (data : List Record) : List (String × Pathway) :=
  data.foldl pathwayStep []

/-- aggregatePathways, identical in both copies of the module. -/
def aggregatePathways (data : List Record) : List Pathway :=
  (aggregatePathwaysKeyed data).map Prod.snd

/-- One aggregated city entry.  The city and state components are kept as
nullable strings because the dataLoader.js copy stores the undefined
result of reading the absent property stateprovince. -/
structure CityEntry where
  city : Option String
  state : Option String
  lat : Option Rat
  lon : Option Rat
  count : Nat
deriving DecidableEq

/-- One forEach step of aggregateCities as written in dataLoader.js: the
Map key interpolates row.city and the absent property stateprovince. -/
def cityStepFe (m : List (String × CityEntry)) (row : Record) : List (String × CityEntry) :=
  jsMapUpsert (jsValToString (jsGetStr row "city") ++ "|" ++ jsValToString (jsGetStr row "stateprovince"))
    (fun e => { e with count := e.count + 1 })
    { city := jsGetStr row "city", state := jsGetStr row "stateprovince",
      lat := row.latitude, lon := row.longitude, count := 1 } m

/-- aggregateCities as written in src/frontend/src/utils/dataLoader.js. -/
def aggregateCitiesFe (data : List Record) : List CityEntry :=
  (data.foldl cityStepFe []).map Prod.snd

/-- One forEach step of aggregateCities as written in part_000: the Map
key interpolates row.city and the canonical property stateProvince. -/
def cityStepP0 (m : List (String × CityEntry)) (row : Record) : List (String × CityEntry) :=
  jsMapUpsert (jsValToString (jsGetStr row "city") ++ "|" ++ jsValToString (jsGetStr row "stateProvince"))
    (fun e => { e with count := e.count + 1 })
    { city := jsGetStr row "city", state := jsGetStr row "stateProvince",
      lat := row.latitude, lon := row.longitude, count := 1 } m

/-- aggregateCities as written in src/unnamed/part_000. -/
def aggregateCitiesP0 (data : List Record) : List CityEntry :=
  (data.foldl cityStepP0 []).map Prod.snd

/-- One aggregated college entry.  The college component is nullable
because the dataLoader.js copy stores the undefined result of reading the
absent property committedto. -/
structure CollegeEntry where
  college : Option String
  count : Nat
deriving DecidableEq

/-- One forEach step of aggregateColleges as written in dataLoader.js:
the Map key is the value of the absent property committedto, so every row
lands under the single key undefined. -/
def collegeStepFe (m : List (Option String × CollegeEntry)) (row : Record) :
    List (Option String × CollegeEntry) :=
  jsMapUpsert (jsGetStr row "committedto") (fun e => { e with count := e.count + 1 })
    { college := jsGetStr row "committedto", count := 1 } m

/-- aggregateColleges as written in src/frontend/src/utils/dataLoader.js. -/
def aggregateCollegesFe (data : List Record) : List CollegeEntry :=
  (data.foldl collegeStepFe []).map Prod.snd

/-- One forEach step of aggregateColleges as written in part_000: keyed
by the canonical property committedTo. -/
def collegeStepP0 (m : List (Option String × CollegeEntry)) (row : Record) :
    List (Option String × CollegeEntry) :=
  jsMapUpsert (jsGetStr row "committedTo") (fun e => { e with count := e.count + 1 })
    { college := jsGetStr row "committedTo", count := 1 } m

/-- aggregateColleges as written in src/unnamed/part_000. -/
def aggregateCollegesP0 (data : List Record) : List CollegeEntry :=
  (data.foldl collegeStepP0 []).map Prod.snd

/-- The per-record pass condition written from the words of claim C2 as
amended: class year within the inclusive range, both coordinates non-null
and non-zero, country USA and, unless the college argument is the
sentinel all, a case-insensitive substring match on committedTo. -/
def coordOk (o : Option Rat) : Bool :=
  decide (o ≠ none ∧ o ≠ some 0)

/-- The whole pass condition of the amended claim C2. -/
def passesFilterSpec (y0 y1 : Int) (c : String) (rec : Record) : Bool :=
  decide (y0 ≤ rec.classYear) && decide (rec.classYear ≤ y1) &&
  coordOk rec.latitude && coordOk rec.longitude &&
  (rec.country == "USA") &&
  (c == "all" || jsIncludes (jsToLower rec.committedTo) (jsToLower c))

/-- Reference entry for one pathway key, written from the words of claim
C5 as amended: the representative fields come from the first record in
the data carrying that key and the count is the number of records
carrying it. -/
def pathwayGroup (data : List Record) (k : String) : Pathway :=
  match data.find? fun r => pathwayKey r == k with
  | some r => { pathwayInit r with count := data.countP fun r => pathwayKey r == k }
  | none =>
    { school := "", college := "", city := "", state := "", lat := none, lon := none, count := 0 }

/-- Reference form of the pathway Map of claim C5 as amended: one entry
per key in first-seen order. -/
def pathwaysSpecKeyed (data : List Record) : List (String × Pathway) :=
  (dedupFirst (data.map pathwayKey)).map fun k => (k, pathwayGroup data k)

/-- A raw CSV row every admission test accepts, used as concrete input by
the witnesses. -/
def rawGood : RawRow where
  year := "2024"
  ranking := "1"
  height := "75"
  weight := "200"
  stars := "4"
  rating := "1"
  classYear := "2024"
  latitude := "33"
  longitude := "-86"
  name := "P"
  school := "HS"
  committedTo := "Alabama"
  city := "Birmingham"
  stateProvince := "AL"
  country := "USA"

/-- The same raw row with a latitude cell that parses to the number 0. -/
def rawZero : RawRow :=
  { rawGood with latitude := "0" }

/-- A processed record every filter pass accepts, used as concrete input
by the witnesses. -/
def recA : Record where
  year := 2024
  ranking := 0
  height := 0
  weight := 0
  stars := 0
  rating := 0
  classYear := 2024
  latitude := some 1
  longitude := some 1
  name := "P"
  school := "HS"
  committedTo := "A"
  city := "X"
  stateProvince := "OH"
  country := "USA"

/-- The same record with the non-null coordinate value 0. -/
def recLat0 : Record :=
  { recA with latitude := some 0 }

/-- A second sample record, concrete input of the claim C6 evaluation. -/
def recB : Record :=
  { recA with committedTo := "B", city := "Y", stateProvince := "TX" }

/-- Sample records whose (school, committedTo) pairs differ while their
joined pathway keys coincide. -/
def recP1 : Record :=
  { recA with school := "a|b", committedTo := "c" }

/-- See recP1. -/
def recP2 : Record :=
  { recA with school := "a", committedTo := "b|c" }

/-- The single pathway entry the code builds from recP1 and recP2. -/
def pwP : Pathway where
  school := "a|b"
  college := "c"
  city := "X"
  state := "OH"
  lat := some 1
  lon := some 1
  count := 2

theorem optTruthy_ne_none {o : Option Rat} (h : optTruthy o = true) : o ≠ none := by
  cases o with
  | none => simp [optTruthy] at h
  | some x => simp

theorem optTruthy_some_zero {o : Option Rat} (h : o = some 0) : optTruthy o = false := by
  subst h; simp [optTruthy]

theorem processRow_school (r : RawRow) : (processRow r).school = r.school := rfl

theorem processRow_committedTo (r : RawRow) : (processRow r).committedTo = r.committedTo := rfl

/-- Everything membership in the load output yields: provenance from an
admitted raw row plus the truthiness facts of the final filter. -/
theorem mem_load_parts {rows : List RawRow} {rec : Record}
    (h : rec ∈ loadRecruitingData rows) :
    (∃ r, r ∈ rows ∧ rec = processRow r ∧
      r.classYear ≠ "" ∧ r.committedTo ≠ "" ∧ r.school ≠ "") ∧
    optTruthy rec.latitude = true ∧ optTruthy rec.longitude = true ∧ 0 < rec.classYear := by
  unfold loadRecruitingData at h
  rw [List.mem_filter] at h
  obtain ⟨hmem, hpred⟩ := h
  rw [List.mem_map] at hmem
  obtain ⟨r, hr, hrec⟩ := hmem
  rw [List.mem_filter] at hr
  obtain ⟨hrows, hq⟩ := hr
  simp only [Bool.and_eq_true, bne_iff_ne, ne_eq, decide_eq_true_eq] at hpred hq
  exact ⟨⟨r, hrows, hrec.symm, hq.1.1, hq.1.2, hq.2⟩, hpred.1.1, hpred.1.2, hpred.2⟩

/-- Claim C1: a record shows up in the load output only if it comes from
a raw row with truthy classYear, non-empty committedTo and school, and
the coerced coordinates are non-null with a positive class year;
consequently no output record has null coordinates, an empty school or
committedTo, or a non-positive class year. -/
theorem load_admission_only_if (rows : List RawRow) (rec : Record)
    (h : rec ∈ loadRecruitingData rows) :
    (∃ r, r ∈ rows ∧ rec = processRow r ∧
      r.classYear ≠ "" ∧ r.committedTo ≠ "" ∧ r.school ≠ "") ∧
    rec.latitude ≠ none ∧ rec.longitude ≠ none ∧
    rec.school ≠ "" ∧ rec.committedTo ≠ "" ∧ 0 < rec.classYear := by
  obtain ⟨⟨r, hr, hrec, h1, h2, h3⟩, hlat, hlon, hcy⟩ := mem_load_parts h
  refine ⟨⟨r, hr, hrec, h1, h2, h3⟩, optTruthy_ne_none hlat, optTruthy_ne_none hlon, ?_, ?_, hcy⟩
  · rw [hrec, processRow_school]; exact h3
  · rw [hrec, processRow_committedTo]; exact h2

/-- Witness for C1 at a concrete admitted row. -/
theorem load_admission_only_if_witness :
    processRow rawGood ∈ loadRecruitingData [rawGood] ∧
    (processRow rawGood).latitude ≠ none ∧ 0 < (processRow rawGood).classYear := by
  refine ⟨by decide, ?_, ?_⟩
  · exact (load_admission_only_if [rawGood] (processRow rawGood) (by decide)).2.1
  · exact (load_admission_only_if [rawGood] (processRow rawGood) (by decide)).2.2.2.2.2

/-- Everything membership in the filter output yields. -/
theorem mem_filterData_parts {data : List Record} {y0 y1 : Int} {c : String} {rec : Record}
    (h : rec ∈ filterData data y0 y1 c) :
    rec ∈ data ∧ y0 ≤ rec.classYear ∧ rec.classYear ≤ y1 ∧
    optTruthy rec.latitude = true ∧ optTruthy rec.longitude = true ∧ rec.country = "USA" := by
  simp only [filterData] at h
  have hbase : rec ∈ data.filter fun row =>
      decide (row.classYear ≥ y0) && decide (row.classYear ≤ y1) &&
      optTruthy row.latitude && optTruthy row.longitude && (row.country == "USA") := by
    by_cases hc : (c != "all") = true
    · rw [if_pos hc] at h
      exact (List.mem_filter.mp h).1
    · rw [if_neg hc] at h
      exact h
  rw [List.mem_filter] at hbase
  obtain ⟨hmem, hp⟩ := hbase
  simp only [Bool.and_eq_true, decide_eq_true_eq, beq_iff_eq, ge_iff_le] at hp
  exact ⟨hmem, hp.1.1.1.1, hp.1.1.1.2, hp.1.1.2, hp.1.2, hp.2⟩

/-- Claim C10: a coordinate value of exactly 0 is treated as missing: at
load time a latitude or longitude cell parsing to 0 is coerced to null
and the row is dropped, and the filter excludes every record carrying a 0
coordinate. -/
theorem zero_coordinate_is_missing :
    (∀ (rows : List RawRow) (r : RawRow),
      (jsParseFloat r.latitude = some 0 → (processRow r).latitude = none) ∧
      (jsParseFloat r.longitude = some 0 → (processRow r).longitude = none) ∧
      (jsParseFloat r.latitude = some 0 ∨ jsParseFloat r.longitude = some 0 →
        processRow r ∉ loadRecruitingData rows)) ∧
    (∀ (data : List Record) (y0 y1 : Int) (c : String) (rec : Record),
      rec.latitude = some 0 ∨ rec.longitude = some 0 → rec ∉ filterData data y0 y1 c) := by
  constructor
  · intro rows r
    have hlat : jsParseFloat r.latitude = some 0 → (processRow r).latitude = none := by
      intro h0; simp [processRow, orNullQ, h0]
    have hlon : jsParseFloat r.longitude = some 0 → (processRow r).longitude = none := by
      intro h0; simp [processRow, orNullQ, h0]
    refine ⟨hlat, hlon, fun h0 hmem => ?_⟩
    obtain ⟨-, ht1, ht2, -⟩ := mem_load_parts hmem
    cases h0 with
    | inl h0 => exact optTruthy_ne_none ht1 (hlat h0)
    | inr h0 => exact optTruthy_ne_none ht2 (hlon h0)
  · intro data y0 y1 c rec h0 hmem
    obtain ⟨-, -, -, ht1, ht2, -⟩ := mem_filterData_parts hmem
    cases h0 with
    | inl h0 => rw [optTruthy_some_zero h0] at ht1; cases ht1
    | inr h0 => rw [optTruthy_some_zero h0] at ht2; cases ht2

/-- Witness for C10 at concrete inputs: a raw row whose latitude cell is
the text 0 and a record with latitude 0. -/
theorem zero_coordinate_is_missing_witness :
    (processRow rawZero).latitude = none ∧
    processRow rawZero ∉ loadRecruitingData [rawZero] ∧
    recLat0 ∉ filterData [recLat0] 2023 2025 "all" := by
  refine ⟨?_, ?_, ?_⟩
  · exact (zero_coordinate_is_missing.1 [rawZero] rawZero).1 (by decide)
  · exact (zero_coordinate_is_missing.1 [rawZero] rawZero).2.2 (Or.inl (by decide))
  · exact zero_coordinate_is_missing.2 [recLat0] 2023 2025 "all" recLat0 (Or.inl (by decide))

theorem coordOk_eq (o : Option Rat) : coordOk o = optTruthy o := by
  cases o with
  | none => simp [coordOk, optTruthy]
  | some x => by_cases h : x = 0 <;> simp [coordOk, optTruthy, h]

/-- filterData agrees pointwise with the pass condition of the amended
claim C2. -/
theorem filterData_eq (data : List Record) (y0 y1 : Int) (c : String) :
    filterData data y0 y1 c = data.filter (passesFilterSpec y0 y1 c) := by
  by_cases hc : c = "all"
  · subst hc
    simp only [filterData]
    rw [if_neg (by simp)]
    apply List.filter_congr
    intro rec _
    rw [Bool.eq_iff_iff]
    simp [passesFilterSpec, coordOk_eq, Bool.and_eq_true, ge_iff_le]
  · simp only [filterData]
    rw [if_pos (by simpa using hc), List.filter_filter]
    apply List.filter_congr
    intro rec _
    rw [Bool.eq_iff_iff]
    simp [passesFilterSpec, coordOk_eq, Bool.and_eq_true, ge_iff_le, hc]
    tauto

/-- Claim C2 (counterexample to the statement as written): this record
has non-null coordinates, country USA and a class year inside the range,
yet the filter drops it, because its latitude 0 is falsy. -/
theorem filterData_nonnull_counterexample :
    recLat0.latitude ≠ none ∧ recLat0.longitude ≠ none ∧ recLat0.country = "USA" ∧
    (2023 : Int) ≤ recLat0.classYear ∧ recLat0.classYear ≤ 2025 ∧
    filterData [recLat0] 2023 2025 "all" = [] := by decide

/-- Claim C2 as amended: the filter keeps exactly the records whose class
year lies in the inclusive range, whose coordinates are non-null and
non-zero, whose country is USA and which pass the case-insensitive
substring test unless the college argument is all; an inverted year range
yields the empty list. -/
theorem filterData_characterization (data : List Record) (y0 y1 : Int) (c : String) :
    filterData data y0 y1 c = data.filter (passesFilterSpec y0 y1 c) ∧
    (y1 < y0 → filterData data y0 y1 c = []) := by
  refine ⟨filterData_eq data y0 y1 c, fun hlt => ?_⟩
  rw [filterData_eq]
  rw [List.filter_eq_nil_iff]
  intro a _
  simp only [passesFilterSpec, Bool.and_eq_true, decide_eq_true_eq]
  rintro ⟨⟨⟨⟨⟨hy0, hy1⟩, -⟩, -⟩, -⟩, -⟩
  omega

/-- Witness for C2: the characterization evaluated at a passing record
and at an inverted year range. -/
theorem filterData_characterization_witness :
    filterData [recA] 2024 2024 "all" = [recA] ∧ filterData [recA] 2025 2024 "all" = [] := by
  constructor
  · rw [(filterData_characterization [recA] 2024 2024 "all").1]; decide
  · exact (filterData_characterization [recA] 2025 2024 "all").2 (by decide)

/-- Claim C9: the filter is idempotent. -/
theorem filterData_idempotent (data : List Record) (y0 y1 : Int) (c : String) :
    filterData (filterData data y0 y1 c) y0 y1 c = filterData data y0 y1 c := by
  rw [filterData_eq data y0 y1 c, filterData_eq]
  exact List.filter_eq_self.mpr fun a ha => (List.mem_filter.mp ha).2

theorem foldl_min_choice (xs : List Int) (x : Int) :
    xs.foldl min x = x ∨ xs.foldl min x ∈ xs := by
  induction xs generalizing x with
  | nil => exact Or.inl rfl
  | cons a as ih =>
    rw [List.foldl_cons]
    rcases ih (min x a) with h | h
    · rcases min_choice x a with h2 | h2
      · exact Or.inl (by rw [h, h2])
      · exact Or.inr (by rw [h, h2]; exact List.mem_cons_self _ _)
    · exact Or.inr (List.mem_cons_of_mem _ h)

theorem foldl_min_le (xs : List Int) (x : Int) :
    xs.foldl min x ≤ x ∧ ∀ y ∈ xs, xs.foldl min x ≤ y := by
  induction xs generalizing x with
  | nil => exact ⟨le_refl x, by simp⟩
  | cons a as ih =>
    obtain ⟨h1, h2⟩ := ih (min x a)
    rw [List.foldl_cons]
    refine ⟨le_trans h1 (min_le_left _ _), fun y hy => ?_⟩
    rcases List.mem_cons.mp hy with rfl | hy
    · exact le_trans h1 (min_le_right _ _)
    · exact h2 y hy

theorem foldl_max_choice (xs : List Int) (x : Int) :
    xs.foldl max x = x ∨ xs.foldl max x ∈ xs := by
  induction xs generalizing x with
  | nil => exact Or.inl rfl
  | cons a as ih =>
    rw [List.foldl_cons]
    rcases ih (max x a) with h | h
    · rcases max_choice x a with h2 | h2
      · exact Or.inl (by rw [h, h2])
      · exact Or.inr (by rw [h, h2]; exact List.mem_cons_self _ _)
    · exact Or.inr (List.mem_cons_of_mem _ h)

theorem foldl_max_ge (xs : List Int) (x : Int) :
    x ≤ xs.foldl max x ∧ ∀ y ∈ xs, y ≤ xs.foldl max x := by
  induction xs generalizing x with
  | nil => exact ⟨le_refl x, by simp⟩
  | cons a as ih =>
    obtain ⟨h1, h2⟩ := ih (max x a)
    rw [List.foldl_cons]
    refine ⟨le_trans (le_max_left _ _) h1, fun y hy => ?_⟩
    rcases List.mem_cons.mp hy with rfl | hy
    · exact le_trans (le_max_right _ _) h1
    · exact h2 y hy

theorem spreadMin_spec {l : List Int} (h : l ≠ []) :
    ∃ m, spreadMin l = some m ∧ m ∈ l ∧ ∀ y ∈ l, m ≤ y := by
  cases l with
  | nil => exact absurd rfl h
  | cons a as =>
    refine ⟨as.foldl min a, rfl, ?_, fun y hy => ?_⟩
    · rcases foldl_min_choice as a with h2 | h2
      · rw [h2]; exact List.mem_cons_self _ _
      · exact List.mem_cons_of_mem _ h2
    · rcases List.mem_cons.mp hy with h2 | h2
      · rw [h2]; exact (foldl_min_le as a).1
      · exact (foldl_min_le as a).2 y h2

theorem spreadMax_spec {l : List Int} (h : l ≠ []) :
    ∃ m, spreadMax l = some m ∧ m ∈ l ∧ ∀ y ∈ l, y ≤ m := by
  cases l with
  | nil => exact absurd rfl h
  | cons a as =>
    refine ⟨as.foldl max a, rfl, ?_, fun y hy => ?_⟩
    · rcases foldl_max_choice as a with h2 | h2
      · rw [h2]; exact List.mem_cons_self _ _
      · exact List.mem_cons_of_mem _ h2
    · rcases List.mem_cons.mp hy with h2 | h2
      · rw [h2]; exact (foldl_max_ge as a).1
      · exact (foldl_max_ge as a).2 y h2

/-- Claim C7: getYearRange returns the minimum and the maximum of the
class years lying strictly between 0 and 2030, and the fixed default when
the input is empty or no class year lies in that range. -/
theorem getYearRange_bounds (data : List Record) :
    (yearsInRange data = [] → getYearRange data = ⟨2023, 2025⟩) ∧
    (yearsInRange data ≠ [] →
      (getYearRange data).min ∈ yearsInRange data ∧
      (getYearRange data).max ∈ yearsInRange data ∧
      ∀ y ∈ yearsInRange data, (getYearRange data).min ≤ y ∧ y ≤ (getYearRange data).max) := by
  constructor
  · intro h
    by_cases hd : data.isEmpty
    · simp [getYearRange, hd]
    · simp [getYearRange, hd, h]
  · intro h
    have hd : data.isEmpty = false := by
      cases data with
      | nil => exact absurd rfl h
      | cons a as => rfl
    have hye : (yearsInRange data).isEmpty = false := by
      cases hcase : yearsInRange data with
      | nil => exact absurd hcase h
      | cons a as => rfl
    obtain ⟨m, hm, hmmem, hmle⟩ := spreadMin_spec h
    obtain ⟨M, hM, hMmem, hMge⟩ := spreadMax_spec h
    have hval : getYearRange data = ⟨m, M⟩ := by
      simp [getYearRange, hd, hye, hm, hM]
    rw [hval]
    exact ⟨hmmem, hMmem, fun y hy => ⟨hmle y hy, hMge y hy⟩⟩

/-- Witness for C7: the default on empty input and the bounds on a
one-record input. -/
theorem getYearRange_bounds_witness :
    getYearRange ([] : List Record) = ⟨2023, 2025⟩ ∧
    (getYearRange [recA]).min ∈ yearsInRange [recA] := by
  constructor
  · exact (getYearRange_bounds []).1 (by decide)
  · exact ((getYearRange_bounds [recA]).2 (by decide)).1

/-- Claim C8 (counterexample to the statement as written): the header
Committed To is none of the three exact names, so the claim sends it to
its lower-cased stripped form committedto, but the dataLoader.js copy
returns committedTo. -/
theorem transformHeader_counterexample :
    ("Committed To" ∉ ["class_year", "stateProvince", "committedTo"]) ∧
    cleanHeader "Committed To" = "committedto" ∧
    transformHeaderFe "Committed To" = "committedTo" ∧
    transformHeaderFe "Committed To" ≠ cleanHeader "Committed To" := by decide

/-- Claim C8 as amended: both copies map the three exact names to the
canonical names; the part_000 copy maps every other header to its
lower-cased whitespace-stripped form, and the dataLoader.js copy does so
whenever that cleaned form is not itself one of the three cleaned
trigger names class_year, stateprovince, committedto. -/
theorem transformHeader_amended (h : String) :
    (transformHeaderFe "class_year" = "classYear" ∧
     transformHeaderFe "stateProvince" = "stateProvince" ∧
     transformHeaderFe "committedTo" = "committedTo" ∧
     transformHeaderP0 "class_year" = "classYear" ∧
     transformHeaderP0 "stateProvince" = "stateProvince" ∧
     transformHeaderP0 "committedTo" = "committedTo") ∧
    (h ≠ "class_year" → h ≠ "stateProvince" → h ≠ "committedTo" →
      transformHeaderP0 h = cleanHeader h) ∧
    (cleanHeader h = "class_year" → transformHeaderFe h = "classYear") ∧
    (cleanHeader h = "stateprovince" → transformHeaderFe h = "stateProvince") ∧
    (cleanHeader h = "committedto" → transformHeaderFe h = "committedTo") ∧
    (cleanHeader h ≠ "class_year" → cleanHeader h ≠ "stateprovince" →
      cleanHeader h ≠ "committedto" → transformHeaderFe h = cleanHeader h) := by
  refine ⟨by decide, fun h1 h2 h3 => ?_, fun h1 => ?_, fun h1 => ?_, fun h1 => ?_,
    fun h1 h2 h3 => ?_⟩
  · simp [transformHeaderP0, h1, h2, h3]
  · simp [transformHeaderFe, h1]
  · have h2 : cleanHeader h ≠ "class_year" := by rw [h1]; decide
    simp [transformHeaderFe, h1, h2]
  · have h2 : cleanHeader h ≠ "class_year" := by rw [h1]; decide
    have h3 : cleanHeader h ≠ "stateprovince" := by rw [h1]; decide
    simp [transformHeaderFe, h1, h2, h3]
  · simp [transformHeaderFe, h1, h2, h3]

/-- Witness for C8: the amended statement evaluated at a plain header and
at a header whose cleaned form is a trigger name. -/
theorem transformHeader_amended_witness :
    transformHeaderP0 "Home Town" = "hometown" ∧
    transformHeaderFe "Home Town" = "hometown" ∧
    transformHeaderFe "CLASS_YEAR" = "classYear" := by
  refine ⟨?_, ?_, ?_⟩
  · have h := (transformHeader_amended "Home Town").2.1 (by decide) (by decide) (by decide)
    rw [h]; decide
  · have h := (transformHeader_amended "Home Town").2.2.2.2.2 (by decide) (by decide) (by decide)
    rw [h]; decide
  · exact (transformHeader_amended "CLASS_YEAR").2.2.1 (by decide)

/-- Claim C4 (code bug, evaluation at the failing input): on a record
committed to college A, the dataLoader.js copy of getUniqueColleges
returns the one-element list undefined instead of the college list A that
the claim promises, while the part_000 copy returns it. -/
theorem uniqueColleges_failing_input :
    getUniqueCollegesFe [recA] = [none] ∧ getUniqueCollegesP0 [recA] = [some "A"] := by decide

/-- Claim C6 (code bug, evaluation at the failing input): the two copies
of getUniqueColleges, aggregateCities and aggregateColleges disagree
already on a single record. -/
theorem duplicated_copies_failing_input :
    getUniqueCollegesFe [recB] ≠ getUniqueCollegesP0 [recB] ∧
    aggregateCitiesFe [recB] ≠ aggregateCitiesP0 [recB] ∧
    aggregateCollegesFe [recB] ≠ aggregateCollegesP0 [recB] := by decide

theorem jsMapUpsert_counts_sum {κ E : Type} [DecidableEq κ] (key : κ) (inc : E → E)
    (init : E) (getC : E → Nat) (hinc : ∀ e, getC (inc e) = getC e + 1)
    (hinit : getC init = 1) (m : List (κ × E)) :
    ((jsMapUpsert key inc init m).map fun e => getC e.2).sum =
      ((m.map fun e => getC e.2).sum) + 1 := by
  induction m with
  | nil => simp [jsMapUpsert, hinit]
  | cons p rest ih =>
    obtain ⟨k, v⟩ := p
    by_cases hk : k = key
    · simp only [jsMapUpsert, if_pos hk, List.map_cons, List.sum_cons, hinc]
      omega
    · simp only [jsMapUpsert, if_neg hk, List.map_cons, List.sum_cons, ih]
      omega

theorem foldl_step_counts {α κ E : Type} (step : List (κ × E) → α → List (κ × E))
    (getC : E → Nat)
    (hstep : ∀ m a, ((step m a).map fun e => getC e.2).sum = ((m.map fun e => getC e.2).sum) + 1)
    (data : List α) (m : List (κ × E)) :
    ((data.foldl step m).map fun e => getC e.2).sum =
      ((m.map fun e => getC e.2).sum) + data.length := by
  induction data generalizing m with
  | nil => simp
  | cons a as ih =>
    rw [List.foldl_cons, ih, hstep]
    simp only [List.length_cons]
    omega

/-- Claim C3: summing the count components over the output of each of the
three aggregation functions gives back the length of the input. -/
theorem aggregate_counts_sum (data : List Record) :
    ((aggregatePathways data).map Pathway.count).sum = data.length ∧
    ((aggregateCitiesFe data).map CityEntry.count).sum = data.length ∧
    ((aggregateCollegesFe data).map CollegeEntry.count).sum = data.length := by
  refine ⟨?_, ?_, ?_⟩
  · rw [aggregatePathways, aggregatePathwaysKeyed, List.map_map]
    have h := foldl_step_counts pathwayStep Pathway.count
      (fun m a => jsMapUpsert_counts_sum (pathwayKey a) _ (pathwayInit a) Pathway.count
        (fun e => rfl) rfl m) data []
    simpa [Function.comp] using h
  · rw [aggregateCitiesFe, List.map_map]
    have h := foldl_step_counts cityStepFe CityEntry.count
      (fun m a => jsMapUpsert_counts_sum _ _ _ CityEntry.count (fun e => rfl) rfl m) data []
    simpa [Function.comp] using h
  · rw [aggregateCollegesFe, List.map_map]
    have h := foldl_step_counts collegeStepFe CollegeEntry.count
      (fun m a => jsMapUpsert_counts_sum _ _ _ CollegeEntry.count (fun e => rfl) rfl m) data []
    simpa [Function.comp] using h

theorem mem_dedupFirstAux {α : Type} [DecidableEq α] (seen l : List α) (x : α) :
    x ∈ dedupFirstAux seen l ↔ x ∈ l ∧ x ∉ seen := by
  induction l generalizing seen with
  | nil => simp [dedupFirstAux]
  | cons a as ih =>
    by_cases ha : a ∈ seen
    · rw [show dedupFirstAux seen (a :: as) = dedupFirstAux seen as from by
        simp [dedupFirstAux, ha]]
      rw [ih, List.mem_cons]
      constructor
      · rintro ⟨h1, h2⟩
        exact ⟨Or.inr h1, h2⟩
      · rintro ⟨h1 | h1, h2⟩
        · exact absurd (h1 ▸ ha) h2
        · exact ⟨h1, h2⟩
    · rw [show dedupFirstAux seen (a :: as) = a :: dedupFirstAux (a :: seen) as from by
        simp [dedupFirstAux, ha]]
      simp only [List.mem_cons, ih]
      constructor
      · rintro (rfl | ⟨h1, h2⟩)
        · exact ⟨Or.inl rfl, ha⟩
        · exact ⟨Or.inr h1, fun hx => h2 (Or.inr hx)⟩
      · rintro ⟨h1 | h1, h2⟩
        · exact Or.inl h1
        · by_cases hxa : x = a
          · exact Or.inl hxa
          · exact Or.inr ⟨h1, fun hx => hx.elim hxa h2⟩

theorem nodup_dedupFirstAux {α : Type} [DecidableEq α] (seen l : List α) :
    (dedupFirstAux seen l).Nodup := by
  induction l generalizing seen with
  | nil => simp [dedupFirstAux]
  | cons a as ih =>
    by_cases ha : a ∈ seen
    · rw [show dedupFirstAux seen (a :: as) = dedupFirstAux seen as from by
        simp [dedupFirstAux, ha]]
      exact ih seen
    · rw [show dedupFirstAux seen (a :: as) = a :: dedupFirstAux (a :: seen) as from by
        simp [dedupFirstAux, ha]]
      rw [List.nodup_cons]
      refine ⟨?_, ih _⟩
      rw [mem_dedupFirstAux]
      rintro ⟨-, h2⟩
      exact h2 (List.mem_cons_self _ _)

theorem mem_dedupFirst {α : Type} [DecidableEq α] (l : List α) (x : α) :
    x ∈ dedupFirst l ↔ x ∈ l := by
  rw [dedupFirst, mem_dedupFirstAux]
  simp

theorem nodup_dedupFirst {α : Type} [DecidableEq α] (l : List α) : (dedupFirst l).Nodup :=
  nodup_dedupFirstAux [] l

theorem dedupFirstAux_append_one {α : Type} [DecidableEq α] (seen l : List α) (k : α) :
    dedupFirstAux seen (l ++ [k]) =
      if k ∈ seen ∨ k ∈ l then dedupFirstAux seen l else dedupFirstAux seen l ++ [k] := by
  induction l generalizing seen with
  | nil => by_cases hk : k ∈ seen <;> simp [dedupFirstAux, hk]
  | cons a as ih =>
    rw [List.cons_append]
    by_cases ha : a ∈ seen
    · rw [show dedupFirstAux seen (a :: (as ++ [k])) = dedupFirstAux seen (as ++ [k]) from by
        simp [dedupFirstAux, ha]]
      rw [show dedupFirstAux seen (a :: as) = dedupFirstAux seen as from by
        simp [dedupFirstAux, ha]]
      rw [ih]
      by_cases hk : k ∈ seen ∨ k ∈ as
      · rw [if_pos hk, if_pos (hk.elim Or.inl fun h => Or.inr (List.mem_cons_of_mem _ h))]
      · rw [if_neg hk, if_neg]
        rintro (h | h)
        · exact hk (Or.inl h)
        · rcases List.mem_cons.mp h with rfl | h2
          · exact hk (Or.inl ha)
          · exact hk (Or.inr h2)
    · have c1 : (k ∈ a :: seen ∨ k ∈ as) ↔ (k ∈ seen ∨ k ∈ a :: as) := by
        simp only [List.mem_cons]
        tauto
      rw [show dedupFirstAux seen (a :: (as ++ [k])) =
          a :: dedupFirstAux (a :: seen) (as ++ [k]) from by simp [dedupFirstAux, ha]]
      rw [show dedupFirstAux seen (a :: as) = a :: dedupFirstAux (a :: seen) as from by
        simp [dedupFirstAux, ha]]
      rw [ih]
      by_cases hk : k ∈ seen ∨ k ∈ a :: as
      · rw [if_pos (c1.mpr hk), if_pos hk]
      · rw [if_neg (fun h => hk (c1.mp h)), if_neg hk, List.cons_append]

theorem dedupFirst_append_one {α : Type} [DecidableEq α] (l : List α) (k : α) :
    dedupFirst (l ++ [k]) = if k ∈ l then dedupFirst l else dedupFirst l ++ [k] := by
  rw [dedupFirst, dedupFirst, dedupFirstAux_append_one]
  simp

theorem jsMapUpsert_absent {κ E : Type} [DecidableEq κ] (key : κ) (inc : E → E) (init : E)
    (m : List (κ × E)) (h : ∀ p ∈ m, p.1 ≠ key) :
    jsMapUpsert key inc init m = m ++ [(key, init)] := by
  induction m with
  | nil => rfl
  | cons p rest ih =>
    obtain ⟨k, v⟩ := p
    have hk : k ≠ key := h (k, v) (List.mem_cons_self _ _)
    simp only [jsMapUpsert, if_neg hk, List.cons_append]
    rw [ih fun q hq => h q (List.mem_cons_of_mem _ hq)]

theorem jsMapUpsert_mapped_mem {κ E : Type} [DecidableEq κ] (key : κ) (inc : E → E) (init : E)
    (l : List κ) (f : κ → E) (hk : key ∈ l) (hnd : l.Nodup) :
    jsMapUpsert key inc init (l.map fun k => (k, f k)) =
      l.map fun k => (k, if k = key then inc (f k) else f k) := by
  induction l with
  | nil => cases hk
  | cons a as ih =>
    rw [List.nodup_cons] at hnd
    rw [List.map_cons, List.map_cons]
    by_cases ha : a = key
    · subst ha
      have e1 : jsMapUpsert a inc init ((a, f a) :: List.map (fun k => (k, f k)) as) =
          (a, inc (f a)) :: List.map (fun k => (k, f k)) as := by
        simp [jsMapUpsert]
      rw [e1, if_pos rfl]
      congr 1
      apply List.map_congr_left
      intro k hkas
      have hne : k ≠ a := fun e => hnd.1 (e ▸ hkas)
      rw [if_neg hne]
    · have hk2 : key ∈ as := by
        rcases List.mem_cons.mp hk with h | h
        · exact absurd h.symm ha
        · exact h
      simp only [jsMapUpsert, if_neg ha]
      rw [ih hk2 hnd.2]

theorem pathwayGroup_append_ne (data : List Record) (r : Record) (k : String)
    (hmem : k ∈ data.map pathwayKey) (hk : k ≠ pathwayKey r) :
    pathwayGroup (data ++ [r]) k = pathwayGroup data k := by
  obtain ⟨r0, hr0, hkey⟩ := List.mem_map.mp hmem
  have hsome : (data.find? fun x => pathwayKey x == k).isSome :=
    List.find?_isSome.mpr ⟨r0, hr0, by simp [hkey]⟩
  obtain ⟨r1, hr1⟩ := Option.isSome_iff_exists.mp hsome
  have hb : (pathwayKey r == k) = false := beq_eq_false_iff_ne.mpr (Ne.symm hk)
  rw [pathwayGroup, pathwayGroup, List.find?_append, hr1, List.countP_append]
  simp [List.countP_cons, hb]

theorem pathwayGroup_append_self_mem (data : List Record) (r : Record)
    (hmem : pathwayKey r ∈ data.map pathwayKey) :
    pathwayGroup (data ++ [r]) (pathwayKey r) =
      { pathwayGroup data (pathwayKey r) with
          count := (pathwayGroup data (pathwayKey r)).count + 1 } := by
  obtain ⟨r0, hr0, hkey⟩ := List.mem_map.mp hmem
  have hsome : (data.find? fun x => pathwayKey x == pathwayKey r).isSome :=
    List.find?_isSome.mpr ⟨r0, hr0, by simp [hkey]⟩
  obtain ⟨r1, hr1⟩ := Option.isSome_iff_exists.mp hsome
  rw [pathwayGroup, pathwayGroup, List.find?_append, hr1, List.countP_append]
  simp [List.countP_cons]

theorem pathwayGroup_append_self_not_mem (data : List Record) (r : Record)
    (hmem : pathwayKey r ∉ data.map pathwayKey) :
    pathwayGroup (data ++ [r]) (pathwayKey r) = pathwayInit r := by
  have hnone : data.find? (fun x => pathwayKey x == pathwayKey r) = none := by
    rw [List.find?_eq_none]
    intro x hx
    simp only [beq_iff_eq]
    exact fun h => hmem (List.mem_map.mpr ⟨x, hx, h⟩)
  have hzero : data.countP (fun x => pathwayKey x == pathwayKey r) = 0 := by
    rw [List.countP_eq_zero]
    intro x hx
    simp only [beq_iff_eq]
    exact fun h => hmem (List.mem_map.mpr ⟨x, hx, h⟩)
  rw [pathwayGroup, List.find?_append, hnone, List.countP_append, hzero]
  simp [List.find?, List.countP_cons, pathwayInit]

theorem pathwaysSpecKeyed_append (data : List Record) (r : Record) :
    pathwaysSpecKeyed (data ++ [r]) = pathwayStep (pathwaysSpecKeyed data) r := by
  have hmap : (data ++ [r]).map pathwayKey = data.map pathwayKey ++ [pathwayKey r] := by
    rw [List.map_append]; rfl
  by_cases hmem : pathwayKey r ∈ data.map pathwayKey
  · have hkeys : dedupFirst ((data ++ [r]).map pathwayKey) = dedupFirst (data.map pathwayKey) := by
      rw [hmap, dedupFirst_append_one, if_pos hmem]
    rw [pathwaysSpecKeyed, hkeys, pathwayStep, pathwaysSpecKeyed]
    rw [jsMapUpsert_mapped_mem _ _ _ _ _ ((mem_dedupFirst _ _).mpr hmem) (nodup_dedupFirst _)]
    apply List.map_congr_left
    intro k hk
    by_cases hkr : k = pathwayKey r
    · subst hkr
      rw [if_pos rfl, pathwayGroup_append_self_mem data r hmem]
    · rw [if_neg hkr, pathwayGroup_append_ne data r k ((mem_dedupFirst _ _).mp hk) hkr]
  · have hkeys : dedupFirst ((data ++ [r]).map pathwayKey) =
        dedupFirst (data.map pathwayKey) ++ [pathwayKey r] := by
      rw [hmap, dedupFirst_append_one, if_neg hmem]
    rw [pathwaysSpecKeyed, hkeys, List.map_append, pathwayStep, pathwaysSpecKeyed]
    rw [jsMapUpsert_absent]
    · congr 1
      · apply List.map_congr_left
        intro k hk
        have hkr : k ≠ pathwayKey r := fun e => hmem (e ▸ (mem_dedupFirst _ _).mp hk)
        rw [pathwayGroup_append_ne data r k ((mem_dedupFirst _ _).mp hk) hkr]
      · rw [List.map_cons, List.map_nil, pathwayGroup_append_self_not_mem data r hmem]
    · intro p hp
      obtain ⟨k, hk, rfl⟩ := List.mem_map.mp hp
      exact fun e => hmem (e ▸ (mem_dedupFirst _ _).mp hk)

theorem aggregatePathwaysKeyed_eq_spec (data : List Record) :
    aggregatePathwaysKeyed data = pathwaysSpecKeyed data := by
  induction data using List.reverseRecOn with
  | nil => rfl
  | append_singleton l r ih =>
    rw [aggregatePathwaysKeyed, List.foldl_append]
    have h1 : List.foldl pathwayStep [] l = aggregatePathwaysKeyed l := rfl
    have h2 : ∀ m : List (String × Pathway), List.foldl pathwayStep m [r] = pathwayStep m r :=
      fun m => rfl
    rw [h1, h2, ih, pathwaysSpecKeyed_append]

/-- Claim C5 (counterexample to grouping by the pair): these two records
have different (school, committedTo) pairs, yet their joined keys
coincide, so the code merges them into one entry with count 2 where
grouping by the pair would give two entries. -/
theorem aggregatePathways_pair_counterexample :
    recP1.school ≠ recP2.school ∧ recP1.committedTo ≠ recP2.committedTo ∧
    pathwayKey recP1 = pathwayKey recP2 ∧
    aggregatePathways [recP1, recP2] = [pwP] := by decide

/-- Claim C5 as amended: aggregatePathways groups records by the joined
key school, separator bar, committedTo; entries appear in first-seen-key
order, the representative fields come from the first record carrying the
key, and the count is the number of records carrying it. -/
theorem aggregatePathways_grouping (data : List Record) :
    aggregatePathways data = (dedupFirst (data.map pathwayKey)).map (pathwayGroup data) := by
  rw [aggregatePathways, aggregatePathwaysKeyed_eq_spec, pathwaysSpecKeyed, List.map_map]
  rfl

end FBSC
